import Mathlib

/-!
Verification development for the resume ingestion and analysis pipeline of the
hireloop job-board application (Supabase edge function `analyze-resume`).
The definitions below are a shallow embedding of
`supabase/functions/analyze-resume/index.ts` (current version): pure helpers are
translated directly, and the external world (object storage, HTTP, the PDF/DOCX
parsing libraries, the OpenAI endpoint, the clock) is supplied through an
explicit environment of oracle functions.

JavaScript numbers are modelled as rationals (`ℚ`); the cases the source treats
identically (absent, non-number, NaN, ±Infinity) are folded into `Option ℚ`
being `none`. Strings are processed as their character lists; JS regular
expression replacement and scanning are implemented as specialised structural
matchers that mirror the exact patterns of the source.
-/

namespace HireLoop

/-! ## JavaScript string/number primitives -/

/-- The character class matched by `\s` in ECMAScript regular expressions and
removed by `String.prototype.trim`: WhiteSpace plus LineTerminator. -/
def isJsWs (c : Char) : Bool :=
  c == ' ' || c == '\t' || c == '\n' || c == '\r' || c == '\u000B' || c == '\u000C' ||
  c == '\u00A0' || c == '\u1680' ||
  c == '\u2000' || c == '\u2001' || c == '\u2002' || c == '\u2003' || c == '\u2004' ||
  c == '\u2005' || c == '\u2006' || c == '\u2007' || c == '\u2008' || c == '\u2009' ||
  c == '\u200A' || c == '\u2028' || c == '\u2029' || c == '\u202F' || c == '\u205F' ||
  c == '\u3000' || c == '\uFEFF'

/-- `Math.round` for finite JS numbers: round half toward positive infinity. -/
def jsRound (q : ℚ) : ℤ := Int.floor (q + 1/2)

/-- Drop leading and trailing JS whitespace from a character list
(`String.prototype.trim`). -/
def trimChars (l : List Char) : List Char :=
  ((l.dropWhile isJsWs).reverse.dropWhile isJsWs).reverse

/-- `String.prototype.trim`. -/
def jsTrim (s : String) : String := String.mk (trimChars s.toList)

/-- First-occurrence deduplication, the order produced by
`Array.from(new Set(xs))` in JS. -/
def dedupFirstAux (seen : List String) : List String → List String
  | [] => []
  | x :: xs => if x ∈ seen then dedupFirstAux seen xs else x :: dedupFirstAux (x :: seen) xs

def dedupFirst (l : List String) : List String := dedupFirstAux [] l

/-- `String.prototype.startsWith` on character lists. -/
def startsWithL : List Char → List Char → Bool
  | [], _ => true
  | _ :: _, [] => false
  | a :: as, b :: bs => a == b && startsWithL as bs

def jsIncludesL (sub : List Char) : List Char → Bool
  | [] => startsWithL sub []
  | c :: rest => startsWithL sub (c :: rest) || jsIncludesL sub rest

/-- `s.includes(sub)` for JS strings. -/
def jsIncludes (s sub : String) : Bool := jsIncludesL sub.toList s.toList

/-! ## `cleanExtractedText`

The source applies, in this order:
1. `.replace(/[\t\r]+/g, " ")`
2. `.replace(/\\u00A0/g, " ")` (non-breaking space)
3. `.replace(/\s{2,}/g, " ")`
4. `.replace(<dash>\s+/g, "-")` — a literal dash followed by `\s+`
5. `.replace(/[•·●▪◦]/g, "-")`
6. `.replace(/\n{3,}/g, "\n\n")`
7. `.trim()`
The surrounding try/catch can never fire (these operations are total), so it is
not modelled. Each global replace is implemented as a structurally recursive
scanner over the character list. -/

def isBullet (c : Char) : Bool :=
  c == '•' || c == '·' || c == '●' || c == '▪' || c == '◦'

def isTabCr (c : Char) : Bool := c == '\t' || c == '\r'

/-- Step 1: each maximal run of tab/carriage-return becomes one space. The
space is emitted at the last character of the run. -/
def tabCrRun : List Char → List Char
  | [] => []
  | c :: cs =>
    if isTabCr c then
      match cs with
      | [] => [' ']
      | d :: _ => if isTabCr d then tabCrRun cs else ' ' :: tabCrRun cs
    else c :: tabCrRun cs

/-- Step 2: non-breaking spaces become spaces. -/
def nbspToSpace (l : List Char) : List Char :=
  l.map (fun c => if c == '\u00A0' then ' ' else c)

/-- Step 3 worker: a maximal run of two or more whitespace characters becomes
one space; a lone whitespace character is kept unchanged. `prevWs` records
whether the current character extends a whitespace run. -/
def wsRunAux (prevWs : Bool) : List Char → List Char
  | [] => []
  | c :: cs =>
    if isJsWs c then
      match cs with
      | [] => [if prevWs then ' ' else c]
      | d :: _ =>
        if isJsWs d then wsRunAux true cs
        else (if prevWs then ' ' else c) :: wsRunAux false cs
    else c :: wsRunAux false cs

def wsRun (l : List Char) : List Char := wsRunAux false l

/-- Step 4 worker: whitespace runs directly following a `-` are deleted.
`afterDash` records whether the previous retained character was a dash (and we
are still inside the whitespace run that follows it). -/
def dashWsAux (afterDash : Bool) : List Char → List Char
  | [] => []
  | c :: cs =>
    if afterDash && isJsWs c then dashWsAux true cs
    else c :: dashWsAux (c == '-') cs

def dashWsRun (l : List Char) : List Char := dashWsAux false l

/-- Step 5: bullet glyphs become `-`. -/
def bulletDash (l : List Char) : List Char :=
  l.map (fun c => if isBullet c then '-' else c)

/-- Step 6 helper: what a finished newline run of length `n` contributes. -/
def emitNl (n : Nat) : List Char :=
  if 3 ≤ n then ['\n', '\n'] else List.replicate n '\n'

/-- Step 6 worker: runs of three or more newlines become exactly two. `count`
is the number of newlines accumulated so far in the current run, capped at 3. -/
def nlAux (count : Nat) : List Char → List Char
  | [] => []
  | c :: cs =>
    if c == '\n' then
      match cs with
      | [] => emitNl (min (count + 1) 3)
      | d :: _ =>
        if d == '\n' then nlAux (min (count + 1) 3) cs
        else emitNl (min (count + 1) 3) ++ nlAux 0 cs
    else c :: nlAux 0 cs

def nlRun (l : List Char) : List Char := nlAux 0 l

def cleanList (l : List Char) : List Char :=
  trimChars (nlRun (bulletDash (dashWsRun (wsRun (nbspToSpace (tabCrRun l))))))

/-- `cleanExtractedText` from the source: normalization applied to every
extraction path. -/
def cleanExtractedText (s : String) : String := String.mk (cleanList s.toList)

/-! ## Format detection -/

/-- `s.toLowerCase()` (ASCII case mapping, which is all the source's
comparisons rely on). -/
def jsToLower (s : String) : String := String.mk (s.toList.map Char.toLower)

def endsWithL (suffix l : List Char) : Bool := startsWithL suffix.reverse l.reverse

/-- `s.endsWith(suffix)`. -/
def jsEndsWith (s suffix : String) : Bool := endsWithL suffix.toList s.toList

/-- `isPdf` from the source:
`(fileName?.toLowerCase().endsWith(".pdf") ?? false) || (contentType?.includes("pdf") ?? false)`. -/
def isPdf (fileName contentType : Option String) : Bool :=
  (fileName.map (fun n => jsEndsWith (jsToLower n) ".pdf")).getD false ||
  (contentType.map (fun c => jsIncludes c "pdf")).getD false

/-- `isDocx` from the source: lower-cased name suffix check, or exact
content-type equality. -/
def isDocx (fileName contentType : Option String) : Bool :=
  (fileName.map (fun n => jsEndsWith (jsToLower n) ".docx")).getD false ||
  (contentType.map (fun c =>
    c == "application/vnd.openxmlformats-officedocument.wordprocessingml.document")).getD false

inductive ExtractFormat | pdf | docx | plain
deriving DecidableEq, Repr

/-- The branch order of `extractText`: the PDF test runs first, the DOCX test
second, everything else is decoded as UTF-8 text. -/
def chosenFormat (fileName contentType : Option String) : ExtractFormat :=
  if isPdf fileName contentType then .pdf
  else if isDocx fileName contentType then .docx
  else .plain


/-! ## Experience estimator (`computeExperienceYears`)

The source scans the text with two global, case-insensitive regular
expressions:

pattern 1: `(?<sm>jan|feb|mar|apr|may|jun|jul|aug|sep|sept|oct|nov|dec)[a-z]*`
`\s+(?<sy>\d{4})\s*[DASH]\s*`
`(?<em>present|current|jan|...|dec)[a-z]*\s*(?<ey>\d{4})?`

pattern 2: `(?<sy>\d{4})\s*[DASH]\s*(?<ey>present|current|\d{4})`

where `[DASH]` is the character class of hyphen, en dash and em dash. The
matchers below reproduce the backtracking-relevant behaviour exactly: ordered
alternation (with retry of later alternatives when the continuation fails),
greedy `[a-z]*`, `\s*`, `\s+` (no backtracking can ever help for these because
the follow-sets are disjoint from the repeated classes), `exec` resuming at the
end of the previous match, and a one-character advance on failure. -/

def isDigitCh (c : Char) : Bool := 48 ≤ c.toNat && c.toNat ≤ 57

def digitVal (c : Char) : Nat := c.toNat - 48

/-- `\d{4}`: exactly four digits at the head, returning `parseInt` of them. -/
def digits4 : List Char → Option (Nat × List Char)
  | a :: b :: c :: d :: rest =>
    if isDigitCh a && isDigitCh b && isDigitCh c && isDigitCh d then
      some (1000 * digitVal a + 100 * digitVal b + 10 * digitVal c + digitVal d, rest)
    else none
  | _ => none

/-- Case-insensitively consume the (lower-case) pattern at the head. -/
def eatPrefixCI : List Char → List Char → Option (List Char)
  | [], l => some l
  | _ :: _, [] => none
  | p :: ps, c :: cs => if c.toLower == p then eatPrefixCI ps cs else none

/-- `[a-z]` under the `i` flag: ASCII letters of either case. -/
def isAsciiLetterI (c : Char) : Bool := 97 ≤ c.toLower.toNat && c.toLower.toNat ≤ 122

def isDashChar (c : Char) : Bool := c == '-' || c == '–' || c == '—'

/-- `\s+`: at least one JS whitespace character, consumed greedily. -/
def wsPlus : List Char → Option (List Char)
  | [] => none
  | c :: cs => if isJsWs c then some (cs.dropWhile isJsWs) else none

/-- The month alternation in source order, with each alternative's `monthMap`
value. (`sep` precedes `sept`, exactly as in the source pattern.) -/
def monthAlts : List (String × Nat) :=
  [("jan", 0), ("feb", 1), ("mar", 2), ("apr", 3), ("may", 4), ("jun", 5), ("jul", 6),
   ("aug", 7), ("sep", 8), ("sept", 8), ("oct", 9), ("nov", 10), ("dec", 11)]

inductive P1End
  | presentTok
  | monthYear (em : Nat) (ey : Nat)
  | monthOnly (em : Nat)
deriving DecidableEq

/-- A pattern-1 match: named groups `sy`, `sm` and the resolved end token. -/
structure M1 where
  sy : Nat
  sm : Nat
  et : P1End
deriving DecidableEq

inductive P2End
  | presentTok
  | year (y : Nat)
deriving DecidableEq

/-- A pattern-2 match: named groups `sy` and `ey`. -/
structure M2 where
  sy : Nat
  et : P2End
deriving DecidableEq

/-- After the `em` token: consume `[a-z]*\s*(\d{4})?`, returning the optional
year group and the position after the whole match. -/
def emTail (l : List Char) : Option Nat × List Char :=
  let l2 := (l.dropWhile isAsciiLetterI).dropWhile isJsWs
  match digits4 l2 with
  | some (y, rest) => (some y, rest)
  | none => (none, l2)

/-- First month alternative whose name is a prefix here (the continuation after
a month `em` token always succeeds, so no retry is needed). -/
def firstMonth : List (String × Nat) → List Char → Option (Nat × List Char)
  | [], _ => none
  | (pat, m) :: rest, l =>
    match eatPrefixCI pat.toList l with
    | some r => some (m, r)
    | none => firstMonth rest l

/-- Pattern 1 continuation after the start-month token has been consumed. -/
def p1AfterSm (sm : Nat) (r0 : List Char) : Option (M1 × List Char) :=
  match wsPlus (r0.dropWhile isAsciiLetterI) with
  | none => none
  | some r2 =>
    match digits4 r2 with
    | none => none
    | some (sy, r3) =>
      match r3.dropWhile isJsWs with
      | [] => none
      | d :: r5 =>
        if isDashChar d then
          let r6 := r5.dropWhile isJsWs
          match eatPrefixCI "present".toList r6 with
          | some r7 => some (⟨sy, sm, .presentTok⟩, (emTail r7).2)
          | none =>
            match eatPrefixCI "current".toList r6 with
            | some r7 => some (⟨sy, sm, .presentTok⟩, (emTail r7).2)
            | none =>
              match firstMonth monthAlts r6 with
              | some (em, r7) =>
                match emTail r7 with
                | (some ey, rest) => some (⟨sy, sm, .monthYear em ey⟩, rest)
                | (none, rest) => some (⟨sy, sm, .monthOnly em⟩, rest)
              | none => none
        else none

/-- Ordered alternation over the start-month alternatives, retrying the next
alternative when the continuation fails (regex backtracking). -/
def p1TryAlts : List (String × Nat) → List Char → Option (M1 × List Char)
  | [], _ => none
  | (pat, m) :: rest, l =>
    match eatPrefixCI pat.toList l with
    | some r0 =>
      match p1AfterSm m r0 with
      | some res => some res
      | none => p1TryAlts rest l
    | none => p1TryAlts rest l

/-- Try pattern 1 anchored at the head of `l`. -/
def matchP1At (l : List Char) : Option (M1 × List Char) := p1TryAlts monthAlts l

/-- Try pattern 2 anchored at the head of `l`. -/
def matchP2At (l : List Char) : Option (M2 × List Char) :=
  match digits4 l with
  | none => none
  | some (sy, r1) =>
    match r1.dropWhile isJsWs with
    | [] => none
    | d :: r3 =>
      if isDashChar d then
        let r4 := r3.dropWhile isJsWs
        match eatPrefixCI "present".toList r4 with
        | some r5 => some (⟨sy, .presentTok⟩, r5)
        | none =>
          match eatPrefixCI "current".toList r4 with
          | some r5 => some (⟨sy, .presentTok⟩, r5)
          | none =>
            match digits4 r4 with
            | some (ey, r5) => some (⟨sy, .year ey⟩, r5)
            | none => none
      else none

/-- The `exec` loop for pattern 1: resume after each match, advance one
character on failure. Fuel equals the list length; every step consumes at
least one character, so the fuel never runs out before the list does. -/
def scanP1Go : Nat → List Char → List M1
  | 0, _ => []
  | _ + 1, [] => []
  | fuel + 1, c :: cs =>
    match matchP1At (c :: cs) with
    | some (m, rest) => m :: scanP1Go fuel rest
    | none => scanP1Go fuel cs

def scanP1 (l : List Char) : List M1 := scanP1Go l.length l

/-- The `exec` loop for pattern 2. -/
def scanP2Go : Nat → List Char → List M2
  | 0, _ => []
  | _ + 1, [] => []
  | fuel + 1, c :: cs =>
    match matchP2At (c :: cs) with
    | some (m, rest) => m :: scanP2Go fuel rest
    | none => scanP2Go fuel cs

def scanP2 (l : List Char) : List M2 := scanP2Go l.length l

/-- A `Date` as the estimator uses it: `key` is order-isomorphic to the JS
timestamp over the dates the estimator can build (first-of-month dates, plus
the current instant which lies strictly inside its month), and `year`/`month`
are `getFullYear()`/`getMonth()`. -/
structure DateV where
  key : Int
  year : Int
  month : Int
deriving DecidableEq

/-- The `Date(year, month, day)` constructor quirk: years 0–99 mean 1900+y. -/
def jsYear (y : Int) : Int := if 0 ≤ y ∧ y ≤ 99 then y + 1900 else y

/-- `new Date(y, m, 1)` for a month index `m` in 0..11. -/
def mkFixed (y m : Int) : DateV := ⟨24 * jsYear y + 2 * m, jsYear y, m⟩

/-- `new Date()` (the current instant), given the wall-clock year and month. -/
def mkNow (ny nm : Int) : DateV := ⟨24 * ny + 2 * nm + 1, ny, nm⟩

/-- One entry of the source's `ranges` array. -/
structure DRange where
  start : DateV
  stop : DateV
deriving DecidableEq

/-- Lines 153–165 of the source: resolve a pattern-1 match to dates.
`monthMap[sm]` is always defined for a matched token, and a missing end year
falls back to the start year. -/
def rangeOfM1 (ny nm : Int) (m : M1) : DRange :=
  { start := mkFixed (Int.ofNat m.sy) (Int.ofNat m.sm)
    stop :=
      match m.et with
      | .presentTok => mkNow ny nm
      | .monthYear em ey => mkFixed (Int.ofNat ey) (Int.ofNat em)
      | .monthOnly em => mkFixed (Int.ofNat m.sy) (Int.ofNat em) }

/-- Lines 166–171 of the source: resolve a pattern-2 match to dates (January,
day 1). -/
def rangeOfM2 (ny nm : Int) (m : M2) : DRange :=
  { start := mkFixed (Int.ofNat m.sy) 0
    stop :=
      match m.et with
      | .presentTok => mkNow ny nm
      | .year ey => mkFixed (Int.ofNat ey) 0 }

/-- All ranges pushed by the scanning loop (pattern 1 first, then pattern 2,
as in the source's `patterns` array), keeping only those with
`end >= start`. -/
def rangesOf (ny nm : Int) (l : List Char) : List DRange :=
  (((scanP1 l).map (rangeOfM1 ny nm)) ++ ((scanP2 l).map (rangeOfM2 ny nm))).filter
    (fun r => r.start.key ≤ r.stop.key)

/-- `computeExperienceYears`, parameterised by the wall-clock year/month used
for "present"/"current". `reduce` on a non-empty array is a left fold over the
tail starting from the head. -/
def computeExperienceYears (ny nm : Int) (text : String) : ℚ :=
  match rangesOf ny nm text.toList with
  | [] => 0
  | r0 :: rest =>
    let earliest := (rest.foldl (fun a b => if a.start.key < b.start.key then a else b) r0).start
    let latest := (rest.foldl (fun a b => if a.stop.key > b.stop.key then a else b) r0).stop
    let months : Int := (latest.year - earliest.year) * 12 + (latest.month - earliest.month)
    max 0 ((jsRound ((months : ℚ) / 12 * 10) : ℚ) / 10)


/-! ## Profile inference client (`analyzeWithAI`)

The OpenAI call and the JSON decoding of its body are external; they are
modelled by a service oracle from the request data to an outcome. `RawParsed`
models the object produced by `JSON.parse` on the (brace-extracted) response
content: each field is `none` when it is absent or of a shape the source's
sanitizer replaces (non-number / non-finite for the numeric fields). -/

/-- The data of the `fetch` request body that `analyzeWithAI` builds: the fixed
model and temperature, the fixed system prompt, and the two data items spliced
into the fixed user-prompt template — the truncated resume text
(`resumeText.slice(0, 120_000)`) and the experience hint
(`experienceYearsHint ?? 0`). The file name is not part of the request. -/
structure InferenceRequest where
  model : String
  temperature : ℚ
  system : String
  userText : String
  userHint : ℚ
deriving DecidableEq

/-- The parsed response object (post `JSON.parse`), field-by-field.
`none` stands for a value the sanitizer treats as missing. -/
structure RawParsed where
  skills : Option (List String)
  experience_years : Option ℚ
  job_role : Option String
  ats_score : Option ℚ
  summary : Option (List String)
  recommendations : Option (List String)
  missing_skills : Option (List String)
  strength_areas : Option (List String)
deriving DecidableEq

/-- The result type of `analyzeWithAI` (the TS `AnalyzeResult` interface:
the last three fields are optional there and stay optional after the
sanitizer, which does not touch them). -/
structure AnalyzeResult where
  skills : List String
  experience_years : ℚ
  job_role : String
  ats_score : ℚ
  summary : List String
  recommendations : Option (List String)
  missing_skills : Option (List String)
  strength_areas : Option (List String)
deriving DecidableEq

/-- Outcome of extracting and `JSON.parse`-ing the response content (including
the best-effort first-brace-span reparse): either a parsed object or a parse
exception. -/
inductive ParseOutcome
  | failure
  | success (raw : RawParsed)

/-- Outcome of the `fetch` to the inference endpoint. -/
inductive ServiceResponse
  | netFailure (msg : String)
  | httpError (status : Nat) (statusText : String)
  | ok (outcome : ParseOutcome)

def sysPrompt : String :=
  "You are an expert resume analyzer in 2025. Analyze resumes across ALL industries and seniority levels. Be factual and only use information present in the text."

/-- `resumeText.slice(0, 120000)` (character-level truncation). -/
def jsSlice (s : String) (n : Nat) : String := String.mk (s.toList.take n)

/-- The request `analyzeWithAI` sends: a function of the resume text and the
experience hint only. -/
def buildInferenceRequest (resumeText : String) (experienceYearsHint : Option ℚ) :
    InferenceRequest :=
  { model := "gpt-4o-mini"
    temperature := 2/10
    system := sysPrompt
    userText := jsSlice resumeText 120000
    userHint := experienceYearsHint.getD 0 }

/-- Lines 218–233 of the source: the object assigned to `parsed` when
`JSON.parse` throws. (`?? 0` and `|| 0` coincide on rationals.) -/
def fallbackRaw (experienceYearsHint : Option ℚ) : RawParsed :=
  { skills := some []
    experience_years := some (experienceYearsHint.getD 0)
    job_role := some "Professional"
    ats_score := some (min 95 (max 50 (60 + (jsRound ((experienceYearsHint.getD 0) * 2) : ℚ))))
    summary := some
      ["Experienced professional with domain expertise.",
       "Proficient with relevant tools and methodologies.",
       "Delivered measurable outcomes across projects.",
       "Cross-functional collaboration on key initiatives.",
       "Continuous improvement and learning mindset."]
    recommendations := some []
    missing_skills := some []
    strength_areas := some [] }

/-- Lines 236–241 of the source ("// Sanitize"), applied to `parsed` whichever
branch produced it. The last three fields pass through untouched. -/
def sanitize (p : RawParsed) (experienceYearsHint : Option ℚ) : AnalyzeResult :=
  let ey : ℚ := match p.experience_years with
    | some q => q
    | none => experienceYearsHint.getD 0
  { skills := dedupFirst (((p.skills.getD []).map jsTrim).filter (fun s => s ≠ ""))
    experience_years := ey
    job_role := jsTrim (match p.job_role with
      | some r => if r = "" then "Professional" else r
      | none => "Professional")
    ats_score := match p.ats_score with
      | some q => q
      | none => min 95 (max 50 (60 + (jsRound (ey * 2) : ℚ)))
    summary := (((p.summary.getD []).take 5).map jsTrim).filter (fun s => s ≠ "")
    recommendations := p.recommendations
    missing_skills := p.missing_skills
    strength_areas := p.strength_areas }

/-- `analyzeWithAI(resumeText, fileName, experienceYearsHint)`. A network
failure or a non-2xx response throws (modelled as `.error`); only a parse
failure is handled locally, by sanitizing the fallback object. `hasKey`
models whether `OPENAI_API_KEY` is configured. -/
def analyzeWithAI (hasKey : Bool) (resumeText : String) (fileName : Option String)
    (experienceYearsHint : Option ℚ) (service : InferenceRequest → ServiceResponse) :
    Except String AnalyzeResult :=
  if !hasKey then .error "OPENAI_API_KEY not configured"
  else
    match service (buildInferenceRequest resumeText experienceYearsHint) with
    | .netFailure msg => .error msg
    | .httpError status statusText =>
        .error ("OpenAI API error: " ++ toString status ++ " " ++ statusText)
    | .ok outcome =>
      .ok (sanitize
        (match outcome with
         | .failure => fallbackRaw experienceYearsHint
         | .success raw => raw)
        experienceYearsHint)

/-! ## Pipeline orchestrator (`serve`)

The request handler body. External effects are supplied by `Env`:
storage download, plain HTTP download, the Supabase-URL parser's outcome
(platform URL parsing), the PDF/DOCX text layers, UTF-8 decoding, the
inference service, and the wall clock. -/

/-- Raw bytes of a downloaded object (`ArrayBuffer`). -/
def Buffer := List Nat
deriving instance DecidableEq for Buffer

/-- Outcome of `supabaseAdmin.storage.from(bucket).download(path)`:
`contentType` is `data.type` (with the empty string mapped to `undefined` by
`|| undefined`). -/
inductive StorageOutcome
  | ok (buffer : Buffer) (contentType : Option String)
  | err (msg : String)

/-- Outcome of `fetch(fileUrl)`: a rejection, or a response with a status and
an optional content-type header. -/
inductive HttpOutcome
  | reject (msg : String)
  | response (status : Nat) (statusText : String) (buffer : Buffer)
      (contentType : Option String)

structure Env where
  hasApiKey : Bool
  /-- whether `SUPABASE_URL`/`SUPABASE_SERVICE_ROLE_KEY` were both set. -/
  storageConfigured : Bool
  storage : String → String → StorageOutcome
  /-- outcome of `parseSupabaseStoragePath` (platform URL parsing): the
  bucket/path pair, or `null`. -/
  parseStorage : String → Option (String × String)
  http : String → HttpOutcome
  /-- `new URL(fileUrl).pathname.split("/").pop()` for a URL that plain
  `fetch` accepted. -/
  httpFileName : String → String
  /-- the page-concatenated text layer produced by pdfjs (before cleaning),
  or a parse exception. -/
  pdfRaw : Buffer → Except String String
  /-- `mammoth.extractRawText(...).value`, possibly `undefined`, or a parse
  exception. -/
  docxRaw : Buffer → Except String (Option String)
  /-- `new TextDecoder("utf-8", { fatal: false }).decode(...)`: total. -/
  utf8 : Buffer → String
  service : InferenceRequest → ServiceResponse
  nowYear : Int
  nowMonth : Int

/-- `extractText(buffer, fileName, contentType)`: dispatch on the detected
format; any extraction exception yields the empty string. -/
def extractText (env : Env) (buffer : Buffer) (fileName contentType : Option String) :
    String :=
  match chosenFormat fileName contentType with
  | .pdf =>
    match env.pdfRaw buffer with
    | .ok s => cleanExtractedText s
    | .error _ => ""
  | .docx =>
    match env.docxRaw buffer with
    | .ok v => cleanExtractedText (v.getD "")
    | .error _ => ""
  | .plain => cleanExtractedText (env.utf8 buffer)

/-- `downloadFromSupabase(bucket, path)`. -/
def downloadFromSupabase (env : Env) (bucket path : String) :
    Except String (Buffer × Option String) :=
  if !env.storageConfigured then .error "Supabase admin client not configured"
  else
    match env.storage bucket path with
    | .ok buf ct => .ok (buf, ct)
    | .err m => .error ("Storage download error: " ++ m)

/-- `fetchViaHttp(fileUrl)`: throws on rejection and on `!res.ok`. -/
def fetchViaHttp (env : Env) (fileUrl : String) : Except String (Buffer × Option String) :=
  match env.http fileUrl with
  | .reject m => .error m
  | .response status statusText buf ct =>
    if 200 ≤ status ∧ status ≤ 299 then .ok (buf, ct)
    else .error ("HTTP download failed: " ++ toString status ++ " " ++ statusText)

/-- The request body (all fields optional in TS). -/
structure AnalyzeRequest where
  storagePath : Option String
  bucket : Option String
  fileUrl : Option String
  fileName : Option String
deriving DecidableEq

/-- JS truthiness for an optional string: `undefined` and `""` are falsy. -/
def strOr (o : Option String) : Option String :=
  match o with
  | some s => if s = "" then none else some s
  | none => none

/-- `a || b` for an optional string and a string default. -/
def jsOrStr (a : Option String) (b : String) : String :=
  match strOr a with
  | some s => s
  | none => b

/-- `s.split(sep)` on character lists, for a single-character separator. -/
def splitSlash : List Char → List (List Char)
  | [] => [[]]
  | c :: cs =>
    if c == '/' then [] :: splitSlash cs
    else
      match splitSlash cs with
      | [] => [[c]]
      | seg :: rest => (c :: seg) :: rest

/-- `s.split("/").pop()` (the last segment; may be empty). -/
def lastSeg (s : String) : String := String.mk ((splitSlash s.toList).getLastD [])

/-- The download step of the handler (lines 262–283): produces the buffer, the
content-type hint and `finalFileName`, or throws. The initial
`fileName || "document"` default combined with the per-branch
`fileName || <derived> || finalFileName` reassignment amounts to
`fileName || <derived> || "document"` in each branch. -/
def fetchStage (env : Env) (body : AnalyzeRequest) :
    Except String (Buffer × Option String × String) :=
  let bucket := jsOrStr body.bucket "resumes"
  match strOr body.storagePath with
  | some sp =>
    match downloadFromSupabase env bucket sp with
    | .ok (buf, ct) => .ok (buf, ct, jsOrStr body.fileName (jsOrStr (some (lastSeg sp)) "document"))
    | .error m => .error m
  | none =>
    match strOr body.fileUrl with
    | some url =>
      match env.parseStorage url with
      | some (b, p) =>
        match downloadFromSupabase env b p with
        | .ok (buf, ct) =>
          .ok (buf, ct, jsOrStr body.fileName (jsOrStr (some (lastSeg p)) "document"))
        | .error m => .error m
      | none =>
        match fetchViaHttp env url with
        | .ok (buf, ct) =>
          .ok (buf, ct, jsOrStr body.fileName (jsOrStr (some (env.httpFileName url)) "document"))
        | .error m => .error m
    | none => .error "Missing storagePath or fileUrl"

/-- The body of the `try` block (lines 262–295): download, extract, estimate,
infer. -/
def runPipeline (env : Env) (body : AnalyzeRequest) : Except String AnalyzeResult :=
  match fetchStage env body with
  | .error m => .error m
  | .ok (buffer, contentType, finalFileName) =>
    let text := extractText env buffer (some finalFileName) contentType
    let experienceYears := computeExperienceYears env.nowYear env.nowMonth text
    analyzeWithAI env.hasApiKey text (some finalFileName) (some experienceYears) env.service

/-- The JSON payload of the HTTP response. The TS handler builds it either as
`{ ok: true, ...analysis }` or as the literal fallback object of lines
300–314; the latter sets only five of the eight profile fields. -/
structure ResponsePayload where
  ok : Bool
  error : Option String
  skills : List String
  experience_years : ℚ
  job_role : String
  ats_score : ℚ
  summary : List String
  recommendations : Option (List String)
  missing_skills : Option (List String)
  strength_areas : Option (List String)
deriving DecidableEq

def mkSuccessPayload (a : AnalyzeResult) : ResponsePayload :=
  { ok := true
    error := none
    skills := a.skills
    experience_years := a.experience_years
    job_role := a.job_role
    ats_score := a.ats_score
    summary := a.summary
    recommendations := a.recommendations
    missing_skills := a.missing_skills
    strength_areas := a.strength_areas }

/-- Lines 300–314: the catch-all fallback payload. `recommendations`,
`missing_skills` and `strength_areas` are not set there. -/
def mkFallbackPayload (msg : String) : ResponsePayload :=
  { ok := false
    error := some msg
    skills := ["Project Management", "Client Relations"]
    experience_years := 0
    job_role := "Professional"
    ats_score := 70
    summary :=
      ["Experienced professional with relevant domain exposure.",
       "Demonstrated proficiency with industry tools.",
       "Delivered outcomes across projects and teams.",
       "Improved processes and stakeholder satisfaction.",
       "Adaptable with continuous learning mindset."]
    recommendations := none
    missing_skills := none
    strength_areas := none }

structure HttpResponse where
  status : Nat
  payload : ResponsePayload
deriving DecidableEq

/-- The incoming request body: `req.json()` either throws or yields an
`AnalyzeRequest`. (The `OPTIONS` preflight short-circuit is not part of the
pipeline and is not modelled.) -/
inductive ReqBody
  | malformed (msg : String)
  | valid (body : AnalyzeRequest)

/-- The request handler (lines 246–321): any exception from the pipeline is
caught, `status` is (re)set to 200, and the fallback payload carries the
error message in-band. -/
def serve (env : Env) (req : ReqBody) : HttpResponse :=
  match req with
  | .malformed msg => { status := 200, payload := mkFallbackPayload msg }
  | .valid body =>
    match runPipeline env body with
    | .ok analysis => { status := 200, payload := mkSuccessPayload analysis }
    | .error msg => { status := 200, payload := mkFallbackPayload msg }


/-! ## Predicates for the normalization analysis -/

/-- No two adjacent whitespace characters (the post-collapse shape). -/
def wsPairOk (a b : Char) : Prop := (isJsWs a && isJsWs b) = false

/-- No whitespace directly after a dash (the post-dash-collapse shape). -/
def dashPairOk (a b : Char) : Prop := a = '-' → isJsWs b = false

def noTabCr (l : List Char) : Prop := ∀ c ∈ l, isTabCr c = false

def noNbsp (l : List Char) : Prop := ∀ c ∈ l, (c == '\u00A0') = false

def noBullet (l : List Char) : Prop := ∀ c ∈ l, isBullet c = false

def headNotWs (l : List Char) : Prop := ∀ c, l.head? = some c → isJsWs c = false

def lastNotWs (l : List Char) : Prop := ∀ c, l.getLast? = some c → isJsWs c = false

/-! ## Concrete environments used in the claim analyses -/

/-- A baseline environment: configured credentials, storage that returns a
small binary object with no content type, a service whose response fails to
parse, and a fixed clock (October 2025). -/
def baseEnv : Env :=
  { hasApiKey := true
    storageConfigured := true
    storage := fun _ _ => .ok [37, 80, 68, 70] none
    parseStorage := fun _ => none
    http := fun _ => .reject "network unreachable"
    httpFileName := fun _ => "document"
    pdfRaw := fun _ => .error "bad pdf"
    docxRaw := fun _ => .error "bad docx"
    utf8 := fun _ => "hello resume text"
    service := fun _ => .ok .failure
    nowYear := 2025
    nowMonth := 9 }

/-- Storage download fails, while the inference service would succeed with a
fully populated profile — inference never gets to run. -/
def envC2 : Env :=
  { baseEnv with
    storage := fun _ _ => .err "Object not found"
    service := fun _ => .ok (.success
      ⟨some ["Kubernetes", "Go"], some 7, some "Platform Engineer", some 88,
       some ["a", "b", "c", "d", "e"], some ["r1"], some ["m1"], some ["s1"]⟩) }

/-- The stored object decodes to a 10-character text, and the service echoes
the resume text it was sent back through the `job_role` field, making the
submitted text observable in the response. -/
def envC4 : Env :=
  { baseEnv with
    utf8 := fun _ => "short text"
    service := fun r => .ok (.success
      ⟨some [], some 0, some r.userText, some 50, some [], some [], some [], some []⟩) }

/-- The service answers with a syntactically valid profile whose `ats_score`
is the finite number 150. -/
def envC7 : Env :=
  { baseEnv with
    service := fun _ => .ok (.success
      ⟨some ["Python"], some 3, some "Engineer", some 150, some ["x", "y"],
       some [], some [], some []⟩) }

/-- The profile produced by sanitizing the parse-failure fallback object:
what `analyzeWithAI` returns when the response cannot be parsed. -/
def fallbackProfile (hint : Option ℚ) : AnalyzeResult :=
  { skills := []
    experience_years := hint.getD 0
    job_role := "Professional"
    ats_score := min 95 (max 50 (60 + (jsRound ((hint.getD 0) * 2) : ℚ)))
    summary :=
      ["Experienced professional with domain expertise.",
       "Proficient with relevant tools and methodologies.",
       "Delivered measurable outcomes across projects.",
       "Cross-functional collaboration on key initiatives.",
       "Continuous improvement and learning mindset."]
    recommendations := some []
    missing_skills := some []
    strength_areas := some [] }

/-! ## Helper lemmas -/

/-- A successful `analyzeWithAI` result is always the sanitizer applied to
some parsed object. -/
theorem analyzeWithAI_ok_inv {k : Bool} {t : String} {fn : Option String}
    {h : Option ℚ} {svc : InferenceRequest → ServiceResponse} {a : AnalyzeResult}
    (hok : analyzeWithAI k t fn h svc = .ok a) : ∃ p, a = sanitize p h := by
  unfold analyzeWithAI at hok
  split at hok
  · cases hok
  · split at hok
    · cases hok
    · cases hok
    · exact ⟨_, by injection hok with hh; exact hh.symm⟩

/-- The sanitizer never emits more than five summary lines. -/
theorem sanitize_summary_le (p : RawParsed) (h : Option ℚ) :
    (sanitize p h).summary.length ≤ 5 := by
  have he : (sanitize p h).summary
      = (((p.summary.getD []).take 5).map jsTrim).filter (fun s => s ≠ "") := rfl
  rw [he]
  refine le_trans (List.length_filter_le _ _) ?_
  rw [List.length_map]
  exact List.length_take_le _ _

/-- The hint-derived score clamp is an integer between 50 and 95. -/
theorem ats_clamp_int (x : ℚ) :
    ∃ n : ℤ, (min 95 (max 50 (60 + (jsRound x : ℚ))) : ℚ) = (n : ℚ) ∧ 50 ≤ n ∧ n ≤ 95 := by
  refine ⟨min 95 (max 50 (60 + jsRound x)), ?_, ?_, min_le_left _ _⟩
  · push_cast
    rfl
  · exact le_min (by norm_num) (le_max_left _ _)

/-! ## The claims -/

/-- C1 (counterexample): a pipeline invocation that ends in the top-level
fallback responds without the `recommendations`, `missing_skills` and
`strength_areas` fields — the response body does not contain all eight
profile fields. -/
theorem C1_fallback_omits_optional_fields :
    (serve baseEnv (.valid ⟨none, none, none, some "cv.pdf"⟩)).payload.recommendations
        = none ∧
    (serve baseEnv (.valid ⟨none, none, none, some "cv.pdf"⟩)).payload.missing_skills
        = none ∧
    (serve baseEnv (.valid ⟨none, none, none, some "cv.pdf"⟩)).payload.strength_areas
        = none := by
  decide

/-- C1 (amended): every response carries the five mandatory fields `skills`,
`experience_years`, `job_role`, `ats_score`, `summary` (present and typed by
construction, with at most five summary lines); the three recommendation
arrays are optional — every response is either the fixed fallback payload
(which omits them) or a sanitized inference result (which passes them through
as received). -/
theorem C1_amended_payload_shape (env : Env) (req : ReqBody) :
    (serve env req).payload.summary.length ≤ 5 ∧
    ((∃ msg, serve env req = ⟨200, mkFallbackPayload msg⟩) ∨
     (∃ p h, serve env req = ⟨200, mkSuccessPayload (sanitize p h)⟩)) := by
  cases req with
  | malformed msg =>
    exact ⟨Nat.le_refl 5, .inl ⟨msg, rfl⟩⟩
  | valid body =>
    cases hr : runPipeline env body with
    | error msg =>
      simp only [serve, hr]
      exact ⟨Nat.le_refl 5, .inl ⟨msg, rfl⟩⟩
    | ok a =>
      have hex : ∃ p h, a = sanitize p h := by
        have hr2 := hr
        unfold runPipeline at hr2
        split at hr2
        · cases hr2
        · obtain ⟨p, hp⟩ := analyzeWithAI_ok_inv hr2
          exact ⟨p, _, hp⟩
      obtain ⟨p, hh, hp⟩ := hex
      subst hp
      simp only [serve, hr]
      exact ⟨sanitize_summary_le p hh, .inr ⟨p, hh, rfl⟩⟩

/-- C2 (counterexample): with storage failing and an inference service that
would answer successfully (`envC2`), the invocation returns the top-level
fallback (`ok: false`) — the orchestrator aborted at the fetch stage instead
of proceeding to extraction and inference on filename-only context. -/
theorem C2_fetch_failure_aborts_cex :
    serve envC2 (.valid ⟨some "user1/resume.pdf", none, none, none⟩) =
      ⟨200, mkFallbackPayload "Storage download error: Object not found"⟩ ∧
    (serve envC2 (.valid ⟨some "user1/resume.pdf", none, none, none⟩)).payload.ok
        = false := by
  decide

/-- C2 (amended): when the fetch stage throws, the error propagates to the
top-level handler, which returns the fixed fallback payload (HTTP 200,
`ok: false`, the error message in-band); extraction, estimation and inference
do not run — the right-hand side does not depend on the inference service. -/
theorem C2_amended_fetch_failure_fallback (env : Env) (body : AnalyzeRequest)
    (msg : String) (h : fetchStage env body = .error msg) :
    serve env (.valid body) = ⟨200, mkFallbackPayload msg⟩ := by
  simp only [serve, runPipeline, h]

theorem C2_amended_witness :
    serve envC2 (.valid ⟨some "u/r.pdf", none, none, none⟩) =
      ⟨200, mkFallbackPayload "Storage download error: Object not found"⟩ :=
  C2_amended_fetch_failure_fallback envC2 ⟨some "u/r.pdf", none, none, none⟩
    "Storage download error: Object not found" rfl

/-- C3 (counterexample): a network failure of the inference call makes
`analyzeWithAI` itself throw (propagate an error), not return the fixed
fallback profile. -/
theorem C3_network_failure_propagates_cex :
    analyzeWithAI true "Senior engineer resume" (some "cv.pdf") (some 3)
      (fun _ => .netFailure "TypeError: error sending request") =
      .error "TypeError: error sending request" := rfl

/-- C3 (amended): only an unrecoverable parse failure is handled inside the
inference client, which then returns the fixed fallback profile (with
`ats_score = min(95, max(50, 60 + round(2 × hint)))`); a network failure and a
non-2xx response both propagate an error to the caller. -/
theorem C3_amended_error_paths (text : String) (fn : Option String) (hint : Option ℚ)
    (msg statusText : String) (status : Nat) :
    analyzeWithAI true text fn hint (fun _ => .netFailure msg) = .error msg ∧
    analyzeWithAI true text fn hint (fun _ => .httpError status statusText) =
      .error ("OpenAI API error: " ++ toString status ++ " " ++ statusText) ∧
    analyzeWithAI true text fn hint (fun _ => .ok .failure) = .ok (fallbackProfile hint) := by
  refine ⟨rfl, rfl, ?_⟩
  rfl

/-- C4 (counterexample): for a 10-character extracted text (`envC4`, whose
service echoes the submitted resume text back through `job_role`), the text
submitted to inference is the raw extracted text, which does not contain the
synthetic marker "Resume document:". -/
theorem C4_no_synthetic_substitution_cex :
    (serve envC4 (.valid ⟨some "user1/resume.txt", none, none, none⟩)).payload.job_role =
      "short text" ∧
    "short text".length < 50 ∧
    jsIncludes "short text" "Resume document:" = false := by
  decide

/-- C4 (amended): the orchestrator submits the extracted text to the
inference client unchanged, whatever its length; no minimum-content threshold
or synthetic filename-derived description exists in the pipeline. -/
theorem C4_amended_text_unchanged (env : Env) (body : AnalyzeRequest) (buf : Buffer)
    (ct : Option String) (name : String) (h : fetchStage env body = .ok (buf, ct, name)) :
    runPipeline env body =
      analyzeWithAI env.hasApiKey (extractText env buf (some name) ct) (some name)
        (some (computeExperienceYears env.nowYear env.nowMonth
          (extractText env buf (some name) ct))) env.service := by
  simp only [runPipeline, h]

theorem C4_amended_witness :
    runPipeline envC4 ⟨some "user1/resume.txt", none, none, none⟩ =
      analyzeWithAI envC4.hasApiKey
        (extractText envC4 [37, 80, 68, 70] (some "resume.txt") none) (some "resume.txt")
        (some (computeExperienceYears envC4.nowYear envC4.nowMonth
          (extractText envC4 [37, 80, 68, 70] (some "resume.txt") none)))
        envC4.service :=
  C4_amended_text_unchanged envC4 ⟨some "user1/resume.txt", none, none, none⟩
    [37, 80, 68, 70] none "resume.txt" rfl

/-- C6 (counterexample): a request with neither `storagePath` nor `fileUrl`
is answered with HTTP status 200 and the same degraded-but-valid fallback
profile as any other failure — not with a non-200-equivalent failure
response. -/
theorem C6_missing_source_still_200_cex :
    serve baseEnv (.valid ⟨none, none, none, none⟩) =
      ⟨200, mkFallbackPayload "Missing storagePath or fileUrl"⟩ := by
  decide

/-- C6 (amended): the handler always responds with status 200, and a request
in which neither `storagePath` nor `fileUrl` is usable (JS-truthy) yields the
standard fallback payload carrying "Missing storagePath or fileUrl"
in-band. -/
theorem C6_amended_missing_source (env : Env) (req : ReqBody) :
    (serve env req).status = 200 ∧
    (∀ body, req = .valid body → strOr body.storagePath = none →
      strOr body.fileUrl = none →
      serve env req = ⟨200, mkFallbackPayload "Missing storagePath or fileUrl"⟩) := by
  constructor
  · cases req with
    | malformed msg => rfl
    | valid body =>
      cases hr : runPipeline env body with
      | ok a => simp [serve, hr]
      | error m => simp [serve, hr]
  · intro body hreq h1 h2
    subst hreq
    simp [serve, runPipeline, fetchStage, h1, h2]

/-- C7 (counterexample): a successful inference whose response carries
`ats_score = 150` is passed through unmodified — the final response's
`ats_score` is 150, outside 1..100. -/
theorem C7_ats_passthrough_cex :
    (serve envC7 (.valid ⟨some "u/resume.txt", none, none, none⟩)).payload.ats_score
        = 150 ∧
    ¬((serve envC7 (.valid ⟨some "u/resume.txt", none, none, none⟩)).payload.ats_score
        ≤ 100) := by
  decide

/-- C7 (amended): the sanitizer passes any finite `ats_score` through
unchanged (no clamping into 1..100); only a missing or non-finite score is
replaced, by the hint-derived clamp, an integer in 50..95; and the top-level
fallback payload's score is the constant 70. -/
theorem C7_amended_ats_sanitization (hint : Option ℚ) (p : RawParsed) (msg : String) :
    (∀ q, p.ats_score = some q → (sanitize p hint).ats_score = q) ∧
    (p.ats_score = none →
      ∃ n : ℤ, (sanitize p hint).ats_score = (n : ℚ) ∧ 50 ≤ n ∧ n ≤ 95) ∧
    (mkFallbackPayload msg).ats_score = 70 := by
  refine ⟨?_, ?_, rfl⟩
  · intro q hq
    simp [sanitize, hq]
  · intro hq
    have he : (sanitize p hint).ats_score =
        min 95 (max 50 (60 + (jsRound ((match p.experience_years with
          | some q => q
          | none => hint.getD 0) * 2) : ℚ))) := by
      simp [sanitize, hq]
    rw [he]
    exact ats_clamp_int _

/-- C8 (counterexample): a declared `.docx` suffix does not win over a PDF
content-type: the extractor picks PDF extraction for
(`resume.docx`, `application/pdf`). -/
theorem C8_format_priority_cex :
    chosenFormat (some "resume.docx") (some "application/pdf") = .pdf ∧
    chosenFormat (some "resume.docx") (some "application/pdf") ≠ .docx := by
  decide

/-- C8 (amended): the format tests are ordered PDF first, then DOCX, and
inside each test the file-name suffix and the content-type are disjunctive
alternatives (no suffix-over-content-type priority): PDF extraction is chosen
exactly when `isPdf` holds, DOCX exactly when `isPdf` fails and `isDocx`
holds, plain decoding otherwise. -/
theorem C8_amended_format_choice (fn ct : Option String) :
    (chosenFormat fn ct = .pdf ↔ isPdf fn ct = true) ∧
    (chosenFormat fn ct = .docx ↔ (isPdf fn ct = false ∧ isDocx fn ct = true)) ∧
    (chosenFormat fn ct = .plain ↔ (isPdf fn ct = false ∧ isDocx fn ct = false)) := by
  unfold chosenFormat
  cases hp : isPdf fn ct <;> cases hd : isDocx fn ct <;> simp

/-- C9 (counterexample): normalization is not idempotent — a bullet glyph
followed by whitespace becomes a dash followed by whitespace, which a second
pass contracts. -/
theorem C9_not_idempotent_cex :
    cleanExtractedText (cleanExtractedText "• item") ≠ cleanExtractedText "• item" := by
  decide

/-- C10: `analyzeWithAI` ignores its file-name argument entirely — for the
same resume text, hint and service, any two file-name hints give the same
request and the same result. -/
theorem C10_fileName_no_effect (k : Bool) (text : String) (hint : Option ℚ)
    (svc : InferenceRequest → ServiceResponse) (fn1 fn2 : Option String) :
    analyzeWithAI k text fn1 hint svc = analyzeWithAI k text fn2 hint svc := rfl

/-- A fold by pairwise choice stays inside the list. -/
theorem foldl_choice_mem {α : Type} (f : α → α → α) (hf : ∀ a b, f a b = a ∨ f a b = b)
    (r0 : α) (rs : List α) : rs.foldl f r0 ∈ r0 :: rs := by
  induction rs generalizing r0 with
  | nil => exact List.mem_singleton.mpr rfl
  | cons x xs ih =>
    rw [List.foldl_cons]
    rcases List.mem_cons.mp (ih (f r0 x)) with h3 | h3
    · rcases hf r0 x with h4 | h4
      · rw [h3, h4]; exact List.mem_cons_self _ _
      · rw [h3, h4]; exact List.mem_cons_of_mem _ (List.mem_cons_self _ _)
    · exact List.mem_cons_of_mem _ (List.mem_cons_of_mem _ h3)

/-- The source's `reduce` for the earliest start yields a lower bound of all
start keys. -/
theorem foldl_min_start_le (r0 : DRange) (rs : List DRange) :
    ∀ r ∈ r0 :: rs,
      (rs.foldl (fun a b => if a.start.key < b.start.key then a else b) r0).start.key ≤
        r.start.key := by
  induction rs generalizing r0 with
  | nil =>
    intro r hr
    rw [List.mem_singleton] at hr
    rw [hr, List.foldl_nil]
  | cons x xs ih =>
    intro r hr
    rw [List.foldl_cons]
    have hy0 : (if r0.start.key < x.start.key then r0 else x).start.key ≤ r0.start.key := by
      split
      · exact le_refl _
      · next hc => exact le_of_not_lt hc
    have hyx : (if r0.start.key < x.start.key then r0 else x).start.key ≤ x.start.key := by
      split
      · next hc => exact le_of_lt hc
      · exact le_refl _
    have hhead := ih (if r0.start.key < x.start.key then r0 else x) _
      (List.mem_cons_self _ _)
    rcases List.mem_cons.mp hr with h1 | h1
    · rw [h1]
      exact le_trans hhead hy0
    · rcases List.mem_cons.mp h1 with h2 | h2
      · rw [h2]
        exact le_trans hhead hyx
      · exact ih _ r (List.mem_cons_of_mem _ h2)

/-- The source's `reduce` for the latest end yields an upper bound of all end
keys. -/
theorem foldl_max_stop_le (r0 : DRange) (rs : List DRange) :
    ∀ r ∈ r0 :: rs,
      r.stop.key ≤
        (rs.foldl (fun a b => if a.stop.key > b.stop.key then a else b) r0).stop.key := by
  induction rs generalizing r0 with
  | nil =>
    intro r hr
    rw [List.mem_singleton] at hr
    rw [hr, List.foldl_nil]
  | cons x xs ih =>
    intro r hr
    rw [List.foldl_cons]
    have hy0 : r0.stop.key ≤ (if r0.stop.key > x.stop.key then r0 else x).stop.key := by
      split
      · exact le_refl _
      · next hc => exact le_of_not_lt hc
    have hyx : x.stop.key ≤ (if r0.stop.key > x.stop.key then r0 else x).stop.key := by
      split
      · next hc => exact le_of_lt hc
      · exact le_refl _
    have hhead := ih (if r0.stop.key > x.stop.key then r0 else x) _
      (List.mem_cons_self _ _)
    rcases List.mem_cons.mp hr with h1 | h1
    · rw [h1]
      exact le_trans hy0 hhead
    · rcases List.mem_cons.mp h1 with h2 | h2
      · rw [h2]
        exact le_trans hyx hhead
      · exact ih _ r (List.mem_cons_of_mem _ h2)

/-- Resolving a year-to-year pattern-2 match does not consult the clock. -/
theorem rangeOfM2_year (ny nm : Int) (sy ey : Nat) :
    rangeOfM2 ny nm ⟨sy, .year ey⟩ =
      ⟨mkFixed (Int.ofNat sy) 0, mkFixed (Int.ofNat ey) 0⟩ := rfl

/-- Unfolding `computeExperienceYears` on a non-empty range list: the value is
the clamped, rounded month span between the `reduce`-selected earliest start
and latest end. -/
theorem computeExperienceYears_eq_of_ranges (ny nm : Int) (text : String) (r0 : DRange)
    (rs : List DRange) (h : rangesOf ny nm text.toList = r0 :: rs) :
    computeExperienceYears ny nm text =
      max 0 ((jsRound
        ((((((rs.foldl (fun a b => if a.stop.key > b.stop.key then a else b) r0).stop.year -
          (rs.foldl (fun a b => if a.start.key < b.start.key then a else b) r0).start.year) * 12 +
          ((rs.foldl (fun a b => if a.stop.key > b.stop.key then a else b) r0).stop.month -
           (rs.foldl (fun a b => if a.start.key < b.start.key then a else b) r0).start.month)) : ℤ) : ℚ)
          / 12 * 10) : ℚ) / 10) := by
  unfold computeExperienceYears
  rw [h]

/-- `Math.round` at a value whose half-offset lies between `z` and `z + 1`. -/
theorem jsRound_eq (q : ℚ) (z : ℤ) (h1 : (z : ℚ) ≤ q + 1/2) (h2 : q + 1/2 < z + 1) :
    jsRound q = z := by
  unfold jsRound
  rw [Int.floor_eq_iff]
  exact ⟨h1, h2⟩

set_option maxHeartbeats 1000000 in
/-- C5: the experience estimator returns 0 when no valid (end not before
start) range is matched; otherwise it returns the whole-month span from the
earliest start to the latest end over all matched ranges (an envelope, not a
sum), divided by 12 and rounded to one decimal. In particular
`"2018 - 2020"` gives 2, `"no dates here"` gives 0, and the overlapping pair
`"2015 - 2018"` / `"2016 - 2020"` gives 5 (the 2015–2020 envelope), not the
7 a per-range sum would give — for every wall-clock instant. -/
theorem C5_experience_estimator_spec (ny nm : Int) (text : String) :
    (rangesOf ny nm text.toList = [] → computeExperienceYears ny nm text = 0) ∧
    (∀ r0 rs, rangesOf ny nm text.toList = r0 :: rs →
      ∃ e l, e ∈ (r0 :: rs).map DRange.start ∧ l ∈ (r0 :: rs).map DRange.stop ∧
        (∀ r ∈ r0 :: rs, e.key ≤ r.start.key ∧ r.stop.key ≤ l.key) ∧
        computeExperienceYears ny nm text =
          max 0 ((jsRound ((((l.year - e.year) * 12 + (l.month - e.month) : ℤ) : ℚ)
            / 12 * 10) : ℚ) / 10)) ∧
    computeExperienceYears ny nm "2018 - 2020" = 2 ∧
    computeExperienceYears ny nm "no dates here" = 0 ∧
    computeExperienceYears ny nm "2015 - 2018\n2016 - 2020" = 5 ∧
    computeExperienceYears ny nm "2015 - 2018\n2016 - 2020" ≠ 7 := by
  have hA : rangesOf ny nm (String.toList "2018 - 2020") =
      [⟨mkFixed (Int.ofNat 2018) 0, mkFixed (Int.ofNat 2020) 0⟩] := by
    unfold rangesOf
    rw [show scanP1 (String.toList "2018 - 2020") = [] from by decide,
      show scanP2 (String.toList "2018 - 2020") = [⟨2018, .year 2020⟩] from by decide]
    simp only [List.map_nil, List.map_cons, List.nil_append, rangeOfM2_year]
    simp only [List.filter, mkFixed, jsYear]
    norm_num
  have hB : rangesOf ny nm (String.toList "no dates here") = [] := by
    unfold rangesOf
    rw [show scanP1 (String.toList "no dates here") = [] from by decide,
      show scanP2 (String.toList "no dates here") = [] from by decide]
    simp only [List.map_nil, List.nil_append, List.filter_nil]
  have hC : rangesOf ny nm (String.toList "2015 - 2018\n2016 - 2020") =
      [⟨mkFixed (Int.ofNat 2015) 0, mkFixed (Int.ofNat 2018) 0⟩,
       ⟨mkFixed (Int.ofNat 2016) 0, mkFixed (Int.ofNat 2020) 0⟩] := by
    unfold rangesOf
    rw [show scanP1 (String.toList "2015 - 2018\n2016 - 2020") = [] from by decide,
      show scanP2 (String.toList "2015 - 2018\n2016 - 2020") =
        [⟨2015, .year 2018⟩, ⟨2016, .year 2020⟩] from by decide]
    simp only [List.map_nil, List.map_cons, List.nil_append, rangeOfM2_year]
    simp only [List.filter, mkFixed, jsYear]
    norm_num
  have hCval : computeExperienceYears ny nm "2015 - 2018\n2016 - 2020" = 5 := by
    rw [computeExperienceYears_eq_of_ranges ny nm _ _ _ hC]
    simp only [List.foldl_cons, List.foldl_nil]
    norm_num [mkFixed, jsYear]
    rw [jsRound_eq 50 50 (by norm_num) (by norm_num)]
    norm_num
  refine ⟨?_, ?_, ?_, ?_, hCval, ?_⟩
  · intro h
    unfold computeExperienceYears
    rw [h]
  · intro r0 rs h
    have hmem1 := foldl_choice_mem (fun a b => if a.start.key < b.start.key then a else b)
      (fun a b => by dsimp only; split; exacts [.inl rfl, .inr rfl]) r0 rs
    have hmem2 := foldl_choice_mem (fun a b => if a.stop.key > b.stop.key then a else b)
      (fun a b => by dsimp only; split; exacts [.inl rfl, .inr rfl]) r0 rs
    exact ⟨_, _, List.mem_map_of_mem _ hmem1, List.mem_map_of_mem _ hmem2,
      fun r hr => ⟨foldl_min_start_le r0 rs r hr, foldl_max_stop_le r0 rs r hr⟩,
      computeExperienceYears_eq_of_ranges ny nm text r0 rs h⟩
  · rw [computeExperienceYears_eq_of_ranges ny nm _ _ _ hA]
    simp only [List.foldl_nil]
    norm_num [mkFixed, jsYear]
    rw [jsRound_eq 20 20 (by norm_num) (by norm_num)]
    norm_num
  · unfold computeExperienceYears
    rw [hB]
  · rw [hCval]
    norm_num

/-! ## Idempotence analysis of `cleanExtractedText` -/

theorem tabCrRun_single (a : Char) :
    tabCrRun [a] = if isTabCr a then [' '] else [a] := rfl

theorem tabCrRun_cons2 (a d : Char) (ds : List Char) :
    tabCrRun (a :: d :: ds) =
      if isTabCr a then
        (if isTabCr d then tabCrRun (d :: ds) else ' ' :: tabCrRun (d :: ds))
      else a :: tabCrRun (d :: ds) := rfl

theorem wsRunAux_single (b : Bool) (a : Char) :
    wsRunAux b [a] = if isJsWs a then [if b then ' ' else a] else [a] := rfl

theorem wsRunAux_cons2 (b : Bool) (a d : Char) (ds : List Char) :
    wsRunAux b (a :: d :: ds) =
      if isJsWs a then
        (if isJsWs d then wsRunAux true (d :: ds)
         else (if b then ' ' else a) :: wsRunAux false (d :: ds))
      else a :: wsRunAux false (d :: ds) := rfl

theorem dashWsAux_cons (b : Bool) (a : Char) (cs : List Char) :
    dashWsAux b (a :: cs) =
      if b && isJsWs a then dashWsAux true cs
      else a :: dashWsAux (a == '-') cs := rfl

theorem nlAux_single (k : Nat) (a : Char) :
    nlAux k [a] = if a == '\n' then emitNl (min (k + 1) 3) else [a] := rfl

theorem nlAux_cons2 (k : Nat) (a d : Char) (ds : List Char) :
    nlAux k (a :: d :: ds) =
      if a == '\n' then
        (if d == '\n' then nlAux (min (k + 1) 3) (d :: ds)
         else emitNl (min (k + 1) 3) ++ nlAux 0 (d :: ds))
      else a :: nlAux 0 (d :: ds) := rfl

theorem map_id_of_mem {f : Char → Char} :
    ∀ l : List Char, (∀ c ∈ l, f c = c) → l.map f = l := by
  intro l
  induction l with
  | nil => intro _; rfl
  | cons a cs ih =>
    intro h
    simp only [List.map_cons]
    rw [h a (List.mem_cons_self _ _), ih (fun c hc => h c (List.mem_cons_of_mem a hc))]

/-- Every character `tabCrRun` emits is a space or an input character. -/
theorem tabCrRun_forall {P : Char → Prop} (hsp : P ' ') :
    ∀ l : List Char, (∀ c ∈ l, P c) → ∀ c ∈ tabCrRun l, P c := by
  intro l
  induction l with
  | nil => intro _ c hc; simp [tabCrRun] at hc
  | cons a cs ih =>
    intro hall c hc
    have htail : ∀ x ∈ cs, P x := fun x hx => hall x (List.mem_cons_of_mem a hx)
    have hhd : P a := hall a (List.mem_cons_self _ _)
    cases cs with
    | nil =>
      rw [tabCrRun_single] at hc
      cases ha : isTabCr a <;> rw [ha] at hc <;> simp only [List.mem_singleton,
        Bool.false_eq_true, if_false, if_true] at hc <;> rw [hc]
      · exact hhd
      · exact hsp
    | cons d ds =>
      rw [tabCrRun_cons2] at hc
      cases ha : isTabCr a <;> rw [ha] at hc
      · simp only [Bool.false_eq_true, if_false] at hc
        rcases List.mem_cons.mp hc with h1 | h1
        · rw [h1]; exact hhd
        · exact ih htail c h1
      · simp only [if_true] at hc
        cases hd : isTabCr d <;> rw [hd] at hc
        · simp only [Bool.false_eq_true, if_false] at hc
          rcases List.mem_cons.mp hc with h1 | h1
          · rw [h1]; exact hsp
          · exact ih htail c h1
        · simp only [if_true] at hc
          exact ih htail c hc

/-- `tabCrRun` removes every tab and carriage return. -/
theorem tabCrRun_no_tabcr : ∀ l : List Char, noTabCr (tabCrRun l) := by
  intro l
  induction l with
  | nil => intro c hc; simp [tabCrRun] at hc
  | cons a cs ih =>
    intro c hc
    cases cs with
    | nil =>
      rw [tabCrRun_single] at hc
      cases ha : isTabCr a <;> rw [ha] at hc <;> simp only [List.mem_singleton,
        Bool.false_eq_true, if_false, if_true] at hc <;> rw [hc]
      · exact ha
      · decide
    | cons d ds =>
      rw [tabCrRun_cons2] at hc
      cases ha : isTabCr a <;> rw [ha] at hc
      · simp only [Bool.false_eq_true, if_false] at hc
        rcases List.mem_cons.mp hc with h1 | h1
        · rw [h1]; exact ha
        · exact ih c h1
      · simp only [if_true] at hc
        cases hd : isTabCr d <;> rw [hd] at hc
        · simp only [Bool.false_eq_true, if_false] at hc
          rcases List.mem_cons.mp hc with h1 | h1
          · rw [h1]; decide
          · exact ih c h1
        · simp only [if_true] at hc
          exact ih c hc

theorem tabCrRun_id : ∀ l : List Char, noTabCr l → tabCrRun l = l := by
  intro l
  induction l with
  | nil => intro _; rfl
  | cons a cs ih =>
    intro h
    have ha : isTabCr a = false := h a (List.mem_cons_self _ _)
    have htail := ih (fun c hc => h c (List.mem_cons_of_mem a hc))
    cases cs with
    | nil => rw [tabCrRun_single, ha]; simp
    | cons d ds =>
      rw [tabCrRun_cons2, ha]
      simp only [Bool.false_eq_true, if_false]
      rw [htail]

theorem nbspToSpace_forall {P : Char → Prop} (hsp : P ' ') (l : List Char)
    (hall : ∀ c ∈ l, P c) : ∀ c ∈ nbspToSpace l, P c := by
  intro c hc
  obtain ⟨a, ha, rfl⟩ := List.mem_map.mp hc
  by_cases h : (a == '\u00A0') = true
  · simp only [nbspToSpace, h, if_true]; exact hsp
  · simp only [nbspToSpace, h, if_false]; exact hall a ha

theorem nbspToSpace_no_nbsp (l : List Char) : noNbsp (nbspToSpace l) := by
  intro c hc
  obtain ⟨a, _, rfl⟩ := List.mem_map.mp hc
  by_cases h : (a == '\u00A0') = true
  · simp only [h, if_true]; decide
  · simp only [h, if_false]
    simpa using h

theorem nbspToSpace_id (l : List Char) (h : noNbsp l) : nbspToSpace l = l := by
  refine map_id_of_mem l (fun c hc => ?_)
  simp [h c hc]

theorem bulletDash_id (l : List Char) (h : noBullet l) : bulletDash l = l := by
  refine map_id_of_mem l (fun c hc => ?_)
  simp [h c hc]

theorem wsRunAux_forall {P : Char → Prop} (hsp : P ' ') :
    ∀ (l : List Char) (b : Bool), (∀ c ∈ l, P c) → ∀ c ∈ wsRunAux b l, P c := by
  intro l
  induction l with
  | nil => intro b _ c hc; simp [wsRunAux] at hc
  | cons a cs ih =>
    intro b hall c hc
    have htail : ∀ x ∈ cs, P x := fun x hx => hall x (List.mem_cons_of_mem a hx)
    have hhd : P a := hall a (List.mem_cons_self _ _)
    cases cs with
    | nil =>
      rw [wsRunAux_single] at hc
      cases ha : isJsWs a <;> rw [ha] at hc <;> simp only [List.mem_singleton,
        Bool.false_eq_true, if_false, if_true] at hc <;> rw [hc]
      · exact hhd
      · cases b <;> simp only [if_true, Bool.false_eq_true, if_false]
        · exact hhd
        · exact hsp
    | cons d ds =>
      rw [wsRunAux_cons2] at hc
      cases ha : isJsWs a <;> rw [ha] at hc
      · simp only [Bool.false_eq_true, if_false] at hc
        rcases List.mem_cons.mp hc with h1 | h1
        · rw [h1]; exact hhd
        · exact ih false htail c h1
      · simp only [if_true] at hc
        cases hd : isJsWs d <;> rw [hd] at hc
        · simp only [Bool.false_eq_true, if_false] at hc
          rcases List.mem_cons.mp hc with h1 | h1
          · rw [h1]
            cases b <;> simp only [if_true, Bool.false_eq_true, if_false]
            · exact hhd
            · exact hsp
          · exact ih false htail c h1
        · simp only [if_true] at hc
          exact ih true htail c hc

/-- When the head of the input is not whitespace, `wsRunAux` keeps it. -/
theorem wsRunAux_head (b : Bool) (d : Char) (ds : List Char) (hd : isJsWs d = false) :
    (wsRunAux b (d :: ds)).head? = some d := by
  cases ds with
  | nil => rw [wsRunAux_single, hd]; simp
  | cons e es => rw [wsRunAux_cons2, hd]; simp

/-- The output of the whitespace collapse has no two adjacent whitespace
characters. -/
theorem wsRunAux_chain : ∀ (l : List Char) (b : Bool),
    List.Chain' wsPairOk (wsRunAux b l) := by
  intro l
  induction l with
  | nil => intro b; exact List.chain'_nil
  | cons a cs ih =>
    intro b
    cases cs with
    | nil =>
      rw [wsRunAux_single]
      split
      · exact List.chain'_singleton _
      · exact List.chain'_singleton _
    | cons d ds =>
      rw [wsRunAux_cons2]
      cases ha : isJsWs a
      · simp only [Bool.false_eq_true, if_false]
        refine (ih false).cons' ?_
        intro y _
        simp [wsPairOk, ha]
      · simp only [if_true]
        cases hd : isJsWs d
        · simp only [Bool.false_eq_true, if_false]
          refine (ih false).cons' ?_
          intro y hy
          rw [wsRunAux_head false d ds hd] at hy
          simp only [Option.mem_def, Option.some_inj] at hy
          subst hy
          simp [wsPairOk, hd]
        · simp only [if_true]
          exact ih true

/-- On a string with no adjacent whitespace pair, the collapse is the
identity. -/
theorem wsRunAux_id : ∀ l : List Char, List.Chain' wsPairOk l → wsRunAux false l = l := by
  intro l
  induction l with
  | nil => intro _; rfl
  | cons a cs ih =>
    intro h
    cases cs with
    | nil =>
      rw [wsRunAux_single]
      split
      · simp
      · rfl
    | cons d ds =>
      have hpair : wsPairOk a d := (List.chain'_cons.mp h).1
      have htail := ih h.tail
      rw [wsRunAux_cons2]
      cases ha : isJsWs a
      · simp only [Bool.false_eq_true, if_false]
        rw [htail]
      · have hd : isJsWs d = false := by
          have := hpair
          rw [wsPairOk, ha] at this
          simpa using this
        simp only [if_true, hd, Bool.false_eq_true, if_false]
        rw [htail]

theorem dashWsAux_forall {P : Char → Prop} :
    ∀ (l : List Char) (b : Bool), (∀ c ∈ l, P c) → ∀ c ∈ dashWsAux b l, P c := by
  intro l
  induction l with
  | nil => intro b _ c hc; simp [dashWsAux] at hc
  | cons a cs ih =>
    intro b hall c hc
    have htail : ∀ x ∈ cs, P x := fun x hx => hall x (List.mem_cons_of_mem a hx)
    rw [dashWsAux_cons] at hc
    by_cases hcond : (b && isJsWs a) = true
    · rw [if_pos hcond] at hc
      exact ih true htail c hc
    · rw [if_neg hcond] at hc
      rcases List.mem_cons.mp hc with h1 | h1
      · rw [h1]; exact hall a (List.mem_cons_self _ _)
      · exact ih (a == '-') htail c h1

/-- `dashWsAux false` keeps the head character. -/
theorem dashWsAux_head_false (l : List Char) : (dashWsAux false l).head? = l.head? := by
  cases l with
  | nil => rfl
  | cons a cs =>
    rw [dashWsAux_cons]
    simp

/-- The head of `dashWsAux true l` is never whitespace. -/
theorem dashWsAux_head_true : ∀ (l : List Char) (c : Char),
    (dashWsAux true l).head? = some c → isJsWs c = false := by
  intro l
  induction l with
  | nil => intro c hc; simp [dashWsAux] at hc
  | cons a cs ih =>
    intro c hc
    rw [dashWsAux_cons] at hc
    cases ha : isJsWs a
    · rw [ha] at hc
      simp only [Bool.and_false, Bool.false_eq_true, if_false, List.head?_cons,
        Option.some_inj] at hc
      rw [← hc]; exact ha
    · rw [ha] at hc
      simp only [Bool.and_true, if_true] at hc
      exact ih c hc

/-- The output of the dash-whitespace collapse has no whitespace directly
after a dash. -/
theorem dashWsAux_chain : ∀ (l : List Char) (b : Bool),
    List.Chain' dashPairOk (dashWsAux b l) := by
  intro l
  induction l with
  | nil => intro b; exact List.chain'_nil
  | cons a cs ih =>
    intro b
    rw [dashWsAux_cons]
    by_cases hcond : (b && isJsWs a) = true
    · rw [if_pos hcond]
      exact ih true
    · rw [if_neg hcond]
      refine (ih (a == '-')).cons' ?_
      intro y hy hda
      subst hda
      simp only [beq_self_eq_true] at hy
      exact dashWsAux_head_true cs y hy

/-- The dash-whitespace collapse never creates an adjacent whitespace pair. -/
theorem dashWsAux_preserves_ws : ∀ (l : List Char) (b : Bool),
    List.Chain' wsPairOk l → List.Chain' wsPairOk (dashWsAux b l) := by
  intro l
  induction l with
  | nil => intro b _; exact List.chain'_nil
  | cons a cs ih =>
    intro b h
    rw [dashWsAux_cons]
    by_cases hcond : (b && isJsWs a) = true
    · rw [if_pos hcond]
      exact ih true h.tail
    · rw [if_neg hcond]
      refine (ih (a == '-') h.tail).cons' ?_
      intro y hy
      cases ha : isJsWs a
      · simp [wsPairOk, ha]
      · have haw : ¬(a = '-') := by
          intro hq
          rw [hq] at ha
          exact absurd ha (by decide)
        have : (a == '-') = false := by simpa using haw
        rw [this, dashWsAux_head_false] at hy
        have hrel := h.rel_head? hy
        exact hrel

/-- On a string with no dash-whitespace pair, the collapse is the identity. -/
theorem dashWsAux_id : ∀ l : List Char, List.Chain' dashPairOk l →
    dashWsAux false l = l ∧ (headNotWs l → dashWsAux true l = l) := by
  intro l
  induction l with
  | nil => intro _; exact ⟨rfl, fun _ => rfl⟩
  | cons a cs ih =>
    intro h
    obtain ⟨ihf, iht⟩ := ih h.tail
    have hbody : a :: dashWsAux (a == '-') cs = a :: cs := by
      by_cases hda : a = '-'
      · subst hda
        simp only [beq_self_eq_true]
        cases cs with
        | nil => rfl
        | cons d ds =>
          have hd : isJsWs d = false := (List.chain'_cons.mp h).1 rfl
          rw [iht]
          intro c hc
          simp only [List.head?_cons, Option.some_inj] at hc
          rw [← hc]; exact hd
      · have : (a == '-') = false := by simpa using hda
        rw [this, ihf]
    constructor
    · rw [dashWsAux_cons]
      simp only [Bool.false_and, Bool.false_eq_true, if_false]
      exact hbody
    · intro hhead
      have ha : isJsWs a = false := hhead a rfl
      rw [dashWsAux_cons, ha]
      simp only [Bool.and_false, Bool.false_eq_true, if_false]
      exact hbody

/-- On a string with no adjacent whitespace pair (hence no newline pair), the
newline collapse is the identity. -/
theorem nlAux_id : ∀ l : List Char, List.Chain' wsPairOk l → nlAux 0 l = l := by
  intro l
  induction l with
  | nil => intro _; rfl
  | cons a cs ih =>
    intro h
    have htail := ih h.tail
    cases cs with
    | nil =>
      rw [nlAux_single]
      cases ha : a == '\n'
      · simp
      · have : a = '\n' := by simpa using ha
        subst this
        simp [emitNl, List.replicate]
    | cons d ds =>
      rw [nlAux_cons2]
      cases ha : a == '\n'
      · simp only [Bool.false_eq_true, if_false]
        rw [htail]
      · have haeq : a = '\n' := by simpa using ha
        subst haeq
        have hd : isJsWs d = false := by
          have hpair := (List.chain'_cons.mp h).1
          rw [wsPairOk, show isJsWs '\n' = true from by decide] at hpair
          simpa using hpair
        have hdn : (d == '\n') = false := by
          cases hq : d == '\n'
          · rfl
          · have : d = '\n' := by simpa using hq
            rw [this] at hd
            exact absurd hd (by decide)
        simp only [if_true, hdn, Bool.false_eq_true, if_false]
        rw [htail]
        simp [emitNl, List.replicate]

/-- The head surviving `dropWhile isJsWs` is not whitespace. -/
theorem head_dropWhile_not_ws : ∀ (l : List Char) (c : Char),
    (l.dropWhile isJsWs).head? = some c → isJsWs c = false := by
  intro l
  induction l with
  | nil => intro c hc; simp at hc
  | cons a cs ih =>
    intro c hc
    rw [List.dropWhile_cons] at hc
    by_cases ha : isJsWs a = true
    · rw [if_pos ha] at hc
      exact ih c hc
    · rw [if_neg ha] at hc
      simp only [List.head?_cons, Option.some_inj] at hc
      rw [← hc]
      simpa using ha

theorem dropWhile_eq_self_of_head (l : List Char) (h : headNotWs l) :
    l.dropWhile isJsWs = l := by
  cases l with
  | nil => rfl
  | cons a cs =>
    rw [List.dropWhile_cons, if_neg]
    rw [h a rfl]
    simp

/-- A non-empty `dropWhile` keeps the last element. -/
theorem getLast?_dropWhile_isJsWs (y : List Char) (hne : y.dropWhile isJsWs ≠ []) :
    (y.dropWhile isJsWs).getLast? = y.getLast? := by
  obtain ⟨t, ht⟩ := List.dropWhile_suffix (l := y) isJsWs
  conv_rhs => rw [← ht]
  exact (List.getLast?_append_of_ne_nil t hne).symm

theorem trimChars_headNotWs (l : List Char) : headNotWs (trimChars l) := by
  intro c hc
  unfold trimChars at hc
  rw [List.head?_reverse] at hc
  have hne : (l.dropWhile isJsWs).reverse.dropWhile isJsWs ≠ [] := by
    intro h0
    rw [h0] at hc
    simp at hc
  rw [getLast?_dropWhile_isJsWs _ hne, List.getLast?_reverse] at hc
  exact head_dropWhile_not_ws l c hc

theorem trimChars_lastNotWs (l : List Char) : lastNotWs (trimChars l) := by
  intro c hc
  unfold trimChars at hc
  rw [List.getLast?_reverse] at hc
  exact head_dropWhile_not_ws _ c hc

theorem trimChars_id (l : List Char) (h1 : headNotWs l) (h2 : lastNotWs l) :
    trimChars l = l := by
  unfold trimChars
  rw [dropWhile_eq_self_of_head l h1]
  rw [dropWhile_eq_self_of_head l.reverse
    (fun c hc => h2 c (by rwa [List.head?_reverse] at hc))]
  exact List.reverse_reverse l

theorem trimChars_infix (l : List Char) : trimChars l <:+: l := by
  have h1 : l.dropWhile isJsWs <:+ l := List.dropWhile_suffix _
  have h2 : (l.dropWhile isJsWs).reverse.dropWhile isJsWs <:+
      (l.dropWhile isJsWs).reverse := List.dropWhile_suffix _
  have h3 := List.reverse_prefix.mpr h2
  rw [List.reverse_reverse] at h3
  exact (List.IsPrefix.isInfix h3).trans (List.IsSuffix.isInfix h1)

/-- The output of `cleanList` on bullet-free input satisfies every invariant
a second pass would need. -/
theorem cleanList_clean (l : List Char) (hb : noBullet l) :
    noTabCr (cleanList l) ∧ noNbsp (cleanList l) ∧ noBullet (cleanList l) ∧
    List.Chain' wsPairOk (cleanList l) ∧ List.Chain' dashPairOk (cleanList l) ∧
    headNotWs (cleanList l) ∧ lastNotWs (cleanList l) := by
  have spTab : isTabCr ' ' = false := by decide
  have spNb : ((' ' : Char) == ' ') = false := by decide
  have spBul : isBullet ' ' = false := by decide
  -- stage names
  set a := tabCrRun l with hadef
  set bb := nbspToSpace a with hbdef
  set w := wsRun bb with hwdef
  set d := dashWsRun w with hddef
  -- stage d facts
  have hdTab : noTabCr d := by
    have h1 : noTabCr a := tabCrRun_no_tabcr l
    have h2 : noTabCr bb := nbspToSpace_forall spTab a h1
    have h3 : noTabCr w := wsRunAux_forall spTab bb false h2
    exact dashWsAux_forall w false h3
  have hdNb : noNbsp d := by
    have h2 : noNbsp bb := nbspToSpace_no_nbsp a
    have h3 : noNbsp w := wsRunAux_forall spNb bb false h2
    exact dashWsAux_forall w false h3
  have hdBul : noBullet d := by
    have h1 : noBullet a := tabCrRun_forall spBul l hb
    have h2 : noBullet bb := nbspToSpace_forall spBul a h1
    have h3 : noBullet w := wsRunAux_forall spBul bb false h2
    exact dashWsAux_forall w false h3
  have hdWs : List.Chain' wsPairOk d := dashWsAux_preserves_ws w false (wsRunAux_chain bb false)
  have hdDash : List.Chain' dashPairOk d := dashWsAux_chain w false
  -- with no bullets, the bullet and newline passes are the identity
  have hclean : cleanList l = trimChars d := by
    unfold cleanList
    rw [← hadef, ← hbdef]
    rw [show wsRun bb = w from hwdef.symm]
    rw [show dashWsRun w = d from hddef.symm]
    rw [bulletDash_id d hdBul, show nlRun d = d from nlAux_id d hdWs]
  rw [hclean]
  have hinf := trimChars_infix d
  have hsub := hinf.subset
  exact ⟨fun c hc => hdTab c (hsub hc), fun c hc => hdNb c (hsub hc),
    fun c hc => hdBul c (hsub hc), hdWs.infix hinf, hdDash.infix hinf,
    trimChars_headNotWs d, trimChars_lastNotWs d⟩

/-- On a string satisfying all the post-normalization invariants, `cleanList`
is the identity. -/
theorem cleanList_fixed (u : List Char) (h1 : noTabCr u) (h2 : noNbsp u)
    (h3 : noBullet u) (h4 : List.Chain' wsPairOk u) (h5 : List.Chain' dashPairOk u)
    (h6 : headNotWs u) (h7 : lastNotWs u) : cleanList u = u := by
  unfold cleanList
  rw [tabCrRun_id u h1, nbspToSpace_id u h2]
  rw [show wsRun u = u from wsRunAux_id u h4]
  rw [show dashWsRun u = u from (dashWsAux_id u h5).1]
  rw [bulletDash_id u h3, show nlRun u = u from nlAux_id u h4, trimChars_id u h6 h7]

/-- C9 (amended): normalization is idempotent on every text that contains no
bullet glyph (the counterexample shows idempotence fails in general: the
bullet pass can create a dash followed by whitespace, which only a second
dash-collapse pass would contract). -/
theorem C9_amended_idempotent_on_bullet_free (s : String)
    (h : ∀ c ∈ s.toList, isBullet c = false) :
    cleanExtractedText (cleanExtractedText s) = cleanExtractedText s := by
  unfold cleanExtractedText
  rw [show (String.mk (cleanList s.toList)).toList = cleanList s.toList from rfl]
  obtain ⟨p1, p2, p3, p4, p5, p6, p7⟩ := cleanList_clean s.toList h
  rw [cleanList_fixed _ p1 p2 p3 p4 p5 p6 p7]

theorem C9_amended_witness :
    (∀ c ∈ ("Skilled  engineer\n\n\n- led team\t2019 - 2021").toList,
      isBullet c = false) ∧
    cleanExtractedText
        (cleanExtractedText "Skilled  engineer\n\n\n- led team\t2019 - 2021") =
      cleanExtractedText "Skilled  engineer\n\n\n- led team\t2019 - 2021" :=
  ⟨by decide, C9_amended_idempotent_on_bullet_free _ (by decide)⟩

end HireLoop
